import Mathlib

set_option maxRecDepth 40000

/-!
Verification development for the skill-data-synthesis pipeline.

The Python pipeline collects "skills", synthesizes training samples from
them through an LLM client, and filters the results.  This file gives a
shallow embedding of the pure computational content of the pipeline
(JSON handling, parsing of LLM output, hashing-based identity,
deduplication, heuristic and LLM-judge filtering) and proves the spec
claims about it.  Python floats are modelled as rationals, machine
integers as naturals reduced mod 2^64, exceptions as `Except`, and
`None`-able results as `Option`.
-/

namespace SkillSynth

/-! ### JSON values, as produced by Python `json.loads` -/

inductive Json where
  | null : Json
  | bool : Bool → Json
  | num : ℚ → Json
  | str : String → Json
  | arr : List Json → Json
  | obj : List (String × Json) → Json

mutual

def Json.decEq : (a b : Json) → Decidable (a = b)
  | .null, .null => .isTrue rfl
  | .null, .bool _ => .isFalse (fun h => Json.noConfusion h)
  | .null, .num _ => .isFalse (fun h => Json.noConfusion h)
  | .null, .str _ => .isFalse (fun h => Json.noConfusion h)
  | .null, .arr _ => .isFalse (fun h => Json.noConfusion h)
  | .null, .obj _ => .isFalse (fun h => Json.noConfusion h)
  | .bool _, .null => .isFalse (fun h => Json.noConfusion h)
  | .bool x, .bool y =>
    match inferInstanceAs (Decidable (x = y)) with
    | .isTrue h => .isTrue (by rw [h])
    | .isFalse h => .isFalse (by intro he; injection he; exact h ‹_›)
  | .bool _, .num _ => .isFalse (fun h => Json.noConfusion h)
  | .bool _, .str _ => .isFalse (fun h => Json.noConfusion h)
  | .bool _, .arr _ => .isFalse (fun h => Json.noConfusion h)
  | .bool _, .obj _ => .isFalse (fun h => Json.noConfusion h)
  | .num _, .null => .isFalse (fun h => Json.noConfusion h)
  | .num _, .bool _ => .isFalse (fun h => Json.noConfusion h)
  | .num x, .num y =>
    match inferInstanceAs (Decidable (x = y)) with
    | .isTrue h => .isTrue (by rw [h])
    | .isFalse h => .isFalse (by intro he; injection he; exact h ‹_›)
  | .num _, .str _ => .isFalse (fun h => Json.noConfusion h)
  | .num _, .arr _ => .isFalse (fun h => Json.noConfusion h)
  | .num _, .obj _ => .isFalse (fun h => Json.noConfusion h)
  | .str _, .null => .isFalse (fun h => Json.noConfusion h)
  | .str _, .bool _ => .isFalse (fun h => Json.noConfusion h)
  | .str _, .num _ => .isFalse (fun h => Json.noConfusion h)
  | .str x, .str y =>
    match inferInstanceAs (Decidable (x = y)) with
    | .isTrue h => .isTrue (by rw [h])
    | .isFalse h => .isFalse (by intro he; injection he; exact h ‹_›)
  | .str _, .arr _ => .isFalse (fun h => Json.noConfusion h)
  | .str _, .obj _ => .isFalse (fun h => Json.noConfusion h)
  | .arr _, .null => .isFalse (fun h => Json.noConfusion h)
  | .arr _, .bool _ => .isFalse (fun h => Json.noConfusion h)
  | .arr _, .num _ => .isFalse (fun h => Json.noConfusion h)
  | .arr _, .str _ => .isFalse (fun h => Json.noConfusion h)
  | .arr x, .arr y =>
    match Json.decEqList x y with
    | .isTrue h => .isTrue (by rw [h])
    | .isFalse h => .isFalse (by intro he; injection he; exact h ‹_›)
  | .arr _, .obj _ => .isFalse (fun h => Json.noConfusion h)
  | .obj _, .null => .isFalse (fun h => Json.noConfusion h)
  | .obj _, .bool _ => .isFalse (fun h => Json.noConfusion h)
  | .obj _, .num _ => .isFalse (fun h => Json.noConfusion h)
  | .obj _, .str _ => .isFalse (fun h => Json.noConfusion h)
  | .obj _, .arr _ => .isFalse (fun h => Json.noConfusion h)
  | .obj x, .obj y =>
    match Json.decEqObj x y with
    | .isTrue h => .isTrue (by rw [h])
    | .isFalse h => .isFalse (by intro he; injection he; exact h ‹_›)

def Json.decEqList : (a b : List Json) → Decidable (a = b)
  | [], [] => .isTrue rfl
  | [], _ :: _ => .isFalse (fun h => List.noConfusion h)
  | _ :: _, [] => .isFalse (fun h => List.noConfusion h)
  | a :: as, b :: bs =>
    match Json.decEq a b with
    | .isTrue h1 =>
      match Json.decEqList as bs with
      | .isTrue h2 => .isTrue (by rw [h1, h2])
      | .isFalse h2 => .isFalse (by intro he; injection he; exact h2 ‹_›)
    | .isFalse h1 => .isFalse (by intro he; injection he; exact h1 ‹_›)

def Json.decEqObj : (a b : List (String × Json)) → Decidable (a = b)
  | [], [] => .isTrue rfl
  | [], _ :: _ => .isFalse (fun h => List.noConfusion h)
  | _ :: _, [] => .isFalse (fun h => List.noConfusion h)
  | (k1, v1) :: as, (k2, v2) :: bs =>
    match inferInstanceAs (Decidable (k1 = k2)) with
    | .isTrue hk =>
      match Json.decEq v1 v2 with
      | .isTrue hv =>
        match Json.decEqObj as bs with
        | .isTrue ht => .isTrue (by rw [hk, hv, ht])
        | .isFalse ht => .isFalse (by intro he; injection he; exact ht ‹_›)
      | .isFalse hv =>
        .isFalse (by
          intro he; injection he with h1 h2
          exact hv (congrArg Prod.snd h1))
    | .isFalse hk =>
      .isFalse (by
        intro he; injection he with h1 h2
        exact hk (congrArg Prod.fst h1))

end

instance : DecidableEq Json := Json.decEq

/-! ### Python string primitives, modelled on `List Char`

`pyIsSpace` is the ASCII part of Python's `str.strip` whitespace set;
`isJsonWs` is the whitespace set of Python's `json` scanner. -/

def pyIsSpace (c : Char) : Bool :=
  c == ' ' || c == '\t' || c == '\n' || c == '\r' || c == '\x0b' || c == '\x0c'

def isJsonWs (c : Char) : Bool :=
  c == ' ' || c == '\t' || c == '\n' || c == '\r'

/-- Remove the trailing run of characters satisfying `p` (right strip). -/
def rightStripP (p : Char → Bool) : List Char → List Char
  | [] => []
  | c :: cs =>
    match rightStripP p cs with
    | [] => if p c then [] else [c]
    | h :: t => c :: h :: t

/-- Python `str.strip()` on a character list. -/
def pyStripL (l : List Char) : List Char :=
  rightStripP pyIsSpace (l.dropWhile pyIsSpace)

/-- Python `str.strip()`. -/
def pyStrip (s : String) : String := (pyStripL s.toList).asString

/-- Python `str.split(sep)` for a one-character separator `sep`. -/
def splitOnChar (sep : Char) : List Char → List (List Char)
  | [] => [[]]
  | c :: cs =>
    match splitOnChar sep cs with
    | [] => [[]]
    | h :: t => if c == sep then [] :: h :: t else (c :: h) :: t

/-- Python `sep.join(parts)` for a one-character separator. -/
def joinWith (sep : Char) : List (List Char) → List Char
  | [] => []
  | [x] => x
  | x :: y :: t => x ++ sep :: joinWith sep (y :: t)

/-- Split at every character satisfying `p` (pieces may be empty). -/
def splitOnP (p : Char → Bool) : List Char → List (List Char)
  | [] => [[]]
  | c :: cs =>
    match splitOnP p cs with
    | [] => [[]]
    | h :: t => if p c then [] :: h :: t else (c :: h) :: t

/-- Python `str.split()` with no argument: whitespace-separated words. -/
def pyWords (l : List Char) : List (List Char) :=
  (splitOnP pyIsSpace l).filter (fun w => !w.isEmpty)

/-! ### A model of Python `json.loads`

A fueled recursive-descent parser over `List Char`.  The fuel passed by
`loadsList` is an over-approximation of the required recursion depth;
running out of fuel only makes the model reject more inputs, which no
claim below depends on. -/

def skipWs (l : List Char) : List Char := l.dropWhile isJsonWs

def hexVal (c : Char) : Option Nat :=
  if '0' ≤ c ∧ c ≤ '9' then some (c.toNat - 48)
  else if 'a' ≤ c ∧ c ≤ 'f' then some (c.toNat - 87)
  else if 'A' ≤ c ∧ c ≤ 'F' then some (c.toNat - 55)
  else none

def escChar (e : Char) : Option Char :=
  if e == '"' then some '"'
  else if e == '\\' then some '\\'
  else if e == '/' then some '/'
  else if e == 'b' then some '\x08'
  else if e == 'f' then some '\x0c'
  else if e == 'n' then some '\n'
  else if e == 'r' then some '\r'
  else if e == 't' then some '\t'
  else none

/-- Parse the body of a JSON string literal (the opening quote already
consumed); returns the decoded characters and the input after the
closing quote. -/
def parseStringBody : Nat → List Char → Option (List Char × List Char)
  | 0, _ => none
  | _ + 1, [] => none
  | fuel + 1, c :: cs =>
    if c == '"' then some ([], cs)
    else if c == '\\' then
      match cs with
      | [] => none
      | e :: cs' =>
        if e == 'u' then
          match cs' with
          | h1 :: h2 :: h3 :: h4 :: cs'' =>
            match hexVal h1, hexVal h2, hexVal h3, hexVal h4 with
            | some a, some b, some c3, some d =>
              match parseStringBody fuel cs'' with
              | some (s, rest) =>
                  some (Char.ofNat (a * 4096 + b * 256 + c3 * 16 + d) :: s, rest)
              | none => none
            | _, _, _, _ => none
          | _ => none
        else
          match escChar e with
          | some ec =>
            match parseStringBody fuel cs' with
            | some (s, rest) => some (ec :: s, rest)
            | none => none
          | none => none
    else if c.toNat < 32 then none
    else
      match parseStringBody fuel cs with
      | some (s, rest) => some (c :: s, rest)
      | none => none

def digitsToNat (ds : List Char) : Nat :=
  ds.foldl (fun acc c => acc * 10 + (c.toNat - 48)) 0

def numValue (neg : Bool) (intDs fracDs : List Char) (exp : ℤ) : ℚ :=
  let m : ℚ := (digitsToNat intDs : ℚ) + (digitsToNat fracDs : ℚ) / (10 : ℚ) ^ fracDs.length
  let v := m * (10 : ℚ) ^ exp
  if neg then -v else v

/-- Parse a JSON number at the head of the input. -/
def parseNumber (l : List Char) : Option (ℚ × List Char) :=
  let p := match l with
    | '-' :: rest => (true, rest)
    | _ => (false, l)
  let neg := p.1
  let l1 := p.2
  let intDigits := l1.takeWhile Char.isDigit
  let l2 := l1.dropWhile Char.isDigit
  if intDigits.isEmpty then none
  else if 1 < intDigits.length ∧ intDigits.head? = some '0' then none
  else
    let q := match l2 with
      | '.' :: rest => (rest.takeWhile Char.isDigit, rest.dropWhile Char.isDigit, true)
      | _ => ([], l2, false)
    let fracDigits := q.1
    let l3 := q.2.1
    let hadDot := q.2.2
    if hadDot ∧ fracDigits.isEmpty then none
    else
      match l3 with
      | e :: rest =>
        if e == 'e' || e == 'E' then
          let r := match rest with
            | '+' :: r1 => ((1 : ℤ), r1)
            | '-' :: r1 => ((-1 : ℤ), r1)
            | _ => ((1 : ℤ), rest)
          let expDigits := r.2.takeWhile Char.isDigit
          let rest2 := r.2.dropWhile Char.isDigit
          if expDigits.isEmpty then none
          else some (numValue neg intDigits fracDigits (r.1 * (digitsToNat expDigits : ℤ)), rest2)
        else some (numValue neg intDigits fracDigits 0, l3)
      | [] => some (numValue neg intDigits fracDigits 0, [])

/-- Python `dict` construction from a key-value pair list: a later
binding of a key overwrites an earlier one. -/
def objOfPairs (pairs : List (String × Json)) : List (String × Json) :=
  pairs.foldl (fun acc kv => acc.filter (fun p => p.1 ≠ kv.1) ++ [kv]) []

mutual

def parseValue : Nat → List Char → Option (Json × List Char)
  | 0, _ => none
  | _ + 1, [] => none
  | fuel + 1, c :: cs =>
    if c == '{' then
      match parseFields fuel (skipWs cs) true with
      | some (fs, rest) => some (Json.obj (objOfPairs fs), rest)
      | none => none
    else if c == '[' then
      match parseElems fuel (skipWs cs) true with
      | some (es, rest) => some (Json.arr es, rest)
      | none => none
    else if c == '"' then
      match parseStringBody (cs.length + 1) cs with
      | some (s, rest) => some (Json.str s.asString, rest)
      | none => none
    else if c == 'n' then
      match cs with
      | 'u' :: 'l' :: 'l' :: rest => some (Json.null, rest)
      | _ => none
    else if c == 't' then
      match cs with
      | 'r' :: 'u' :: 'e' :: rest => some (Json.bool true, rest)
      | _ => none
    else if c == 'f' then
      match cs with
      | 'a' :: 'l' :: 's' :: 'e' :: rest => some (Json.bool false, rest)
      | _ => none
    else if c == '-' || c.isDigit then
      match parseNumber (c :: cs) with
      | some (q, rest) => some (Json.num q, rest)
      | none => none
    else none

def parseElems : Nat → List Char → Bool → Option (List Json × List Char)
  | 0, _, _ => none
  | fuel + 1, l, first =>
    match l with
    | ']' :: rest => if first then some ([], rest) else none
    | _ =>
      match parseValue fuel l with
      | some (v, rest) =>
        match skipWs rest with
        | ']' :: r2 => some ([v], r2)
        | ',' :: r2 =>
          match parseElems fuel (skipWs r2) false with
          | some (vs, r3) => some (v :: vs, r3)
          | none => none
        | _ => none
      | none => none

def parseFields : Nat → List Char → Bool → Option (List (String × Json) × List Char)
  | 0, _, _ => none
  | fuel + 1, l, first =>
    match l with
    | '}' :: rest => if first then some ([], rest) else none
    | '"' :: cs =>
      match parseStringBody (cs.length + 1) cs with
      | some (k, r1) =>
        match skipWs r1 with
        | ':' :: r2 =>
          match parseValue fuel (skipWs r2) with
          | some (v, r3) =>
            match skipWs r3 with
            | '}' :: r4 => some ([(k.asString, v)], r4)
            | ',' :: r4 =>
              match parseFields fuel (skipWs r4) false with
              | some (fs, r5) => some ((k.asString, v) :: fs, r5)
              | none => none
            | _ => none
          | none => none
        | _ => none
      | none => none
    | _ => none

end

/-- Python `json.loads` on a character list: a single JSON value with
only whitespace around it. -/
def loadsList (l : List Char) : Option Json :=
  match parseValue (2 * l.length + 8) (skipWs l) with
  | some (v, rest) => if (skipWs rest).isEmpty then some v else none
  | none => none

/-- Python `json.loads`. -/
def loads (s : String) : Option Json := loadsList s.toList

/-! ### `_extract_json` from `skill_synth/llm/base.py`

Strips at most one markdown code fence before parsing. -/

/-- Three backticks, the markdown code-fence delimiter. -/
def fenceMarker : List Char := "```".toList

/-- The `if lines and lines[-1].strip() == "```"` removal of the
closing fence line. -/
def dropClosingFence (lines : List (List Char)) : List (List Char) :=
  match lines.getLast? with
  | some lastLine => if pyStripL lastLine = fenceMarker then lines.dropLast else lines
  | none => lines

/-- The fence-stripping preprocessing of `_extract_json` (everything
before the final `json.loads` call): strip, drop the opening fence line
and the closing fence line, re-join and strip again. -/
def stripCodeFences (l : List Char) : List Char :=
  if fenceMarker.isPrefixOf (pyStripL l) then
    pyStripL (joinWith '\n' (dropClosingFence ((splitOnChar '\n' (pyStripL l)).tail)))
  else pyStripL l

/-- `_extract_json`: strip markdown fences, then `json.loads`. -/
def _extract_json (s : String) : Option Json := loadsList (stripCodeFences s.toList)

/-! ### xxHash64 (the `xxhash.xxh64` library call used by `Skill.id`)

A direct transcription of the XXH64 algorithm over byte lists, with
64-bit words as naturals reduced mod `2 ^ 64`. -/

def prime64_1 : Nat := 11400714785074694791
def prime64_2 : Nat := 14029467366897019727
def prime64_3 : Nat := 1609587929392839161
def prime64_4 : Nat := 9650029242287828579
def prime64_5 : Nat := 2870177450012600261

/-- 2 ^ 64, the modulus for 64-bit arithmetic. -/
def M64 : Nat := 18446744073709551616

/-- Rotate a 64-bit word left by `r` (for `0 < r < 64`, `x < 2 ^ 64`). -/
def rotl64 (x r : Nat) : Nat :=
  (x % 2 ^ (64 - r)) * 2 ^ r + x / 2 ^ (64 - r)

def xxhRound (acc lane : Nat) : Nat :=
  (rotl64 ((acc + lane * prime64_2) % M64) 31 * prime64_1) % M64

def xxhMergeRound (h v : Nat) : Nat :=
  ((h ^^^ xxhRound 0 v) * prime64_1 + prime64_4) % M64

/-- Little-endian word from a byte list. -/
def readLE (bytes : List Nat) : Nat :=
  bytes.reverse.foldl (fun a b => a * 256 + b) 0

/-- The 32-byte stripe loop of XXH64.  The `fuel` argument only bounds
the number of iterations; the callers pass at least the input length, so
the loop always stops through the length test, exactly as the
`while p + 32 <= bEnd` loop does. -/
def stripesLoop : Nat → Nat → Nat → Nat → Nat → List Nat → (Nat × Nat × Nat × Nat) × List Nat
  | 0, v1, v2, v3, v4, l => ((v1, v2, v3, v4), l)
  | fuel + 1, v1, v2, v3, v4, l =>
    if 32 ≤ l.length then
      stripesLoop fuel
                  (xxhRound v1 (readLE (l.take 8)))
                  (xxhRound v2 (readLE ((l.drop 8).take 8)))
                  (xxhRound v3 (readLE ((l.drop 16).take 8)))
                  (xxhRound v4 (readLE ((l.drop 24).take 8)))
                  (l.drop 32)
    else ((v1, v2, v3, v4), l)

/-- The 8-byte tail loop of XXH64, fueled like `stripesLoop`. -/
def tailLoop8 : Nat → Nat → List Nat → Nat × List Nat
  | 0, h, l => (h, l)
  | fuel + 1, h, l =>
    if 8 ≤ l.length then
      tailLoop8 fuel
                ((rotl64 (h ^^^ xxhRound 0 (readLE (l.take 8))) 27 * prime64_1 + prime64_4) % M64)
                (l.drop 8)
    else (h, l)

def xxhAvalanche (h : Nat) : Nat :=
  let h1 := h ^^^ (h / 2 ^ 33)
  let h2 := (h1 * prime64_2) % M64
  let h3 := h2 ^^^ (h2 / 2 ^ 29)
  let h4 := (h3 * prime64_3) % M64
  h4 ^^^ (h4 / 2 ^ 32)

def xxh64 (seed : Nat) (input : List Nat) : Nat :=
  let len := input.length
  let start :=
    if 32 ≤ len then
      let v1 := (seed + prime64_1 + prime64_2) % M64
      let v2 := (seed + prime64_2) % M64
      let v3 := seed % M64
      let v4 := (seed + (M64 - prime64_1 % M64)) % M64
      let res := stripesLoop (len + 1) v1 v2 v3 v4 input
      let q := res.1
      let hacc := (rotl64 q.1 1 + rotl64 q.2.1 7 + rotl64 q.2.2.1 12 + rotl64 q.2.2.2 18) % M64
      let hacc := xxhMergeRound hacc q.1
      let hacc := xxhMergeRound hacc q.2.1
      let hacc := xxhMergeRound hacc q.2.2.1
      let hacc := xxhMergeRound hacc q.2.2.2
      (hacc, res.2)
    else ((seed + prime64_5) % M64, input)
  let h1 := (start.1 + len) % M64
  let r8 := tailLoop8 (len + 1) h1 start.2
  let afterFour :=
    if 4 ≤ r8.2.length then
      (((rotl64 (r8.1 ^^^ ((readLE (r8.2.take 4) * prime64_1) % M64)) 23 * prime64_2 + prime64_3) % M64),
       r8.2.drop 4)
    else (r8.1, r8.2)
  let h4 := afterFour.2.foldl
    (fun acc b => (rotl64 (acc ^^^ ((b * prime64_5) % M64)) 11 * prime64_1) % M64) afterFour.1
  xxhAvalanche h4

def hexChar (n : Nat) : Char :=
  if n < 10 then Char.ofNat (48 + n) else Char.ofNat (87 + n)

/-- Sixteen lowercase hex digits of a 64-bit word (`hexdigest()`). -/
def toHex16 (n : Nat) : String :=
  ((List.range 16).map (fun i => hexChar (n / 16 ^ (15 - i) % 16))).asString

/-- UTF-8 bytes of one character. -/
def utf8Bytes (c : Char) : List Nat :=
  let n := c.toNat
  if n < 128 then [n]
  else if n < 2048 then [192 + n / 64, 128 + n % 64]
  else if n < 65536 then [224 + n / 4096, 128 + n / 64 % 64, 128 + n % 64]
  else [240 + n / 262144, 128 + n / 4096 % 64, 128 + n / 64 % 64, 128 + n % 64]

def utf8Encode (s : String) : List Nat := (s.toList.map utf8Bytes).flatten

/-! ### Data models from `skill_synth/models.py` -/

inductive SynthesisStrategy where
  | direct_task
  | scenario_based
  | conversation
  | edge_case
  deriving DecidableEq

/-- The `SynthesisStrategy(name)` enum constructor; `none` models the
`ValueError` raised on an unknown name. -/
def strategyOfString (s : String) : Option SynthesisStrategy :=
  if s = "direct_task" then some .direct_task
  else if s = "scenario_based" then some .scenario_based
  else if s = "conversation" then some .conversation
  else if s = "edge_case" then some .edge_case
  else none

structure Skill where
  name : String
  content : String
  source : String
  tags : List String := []
  metadata : List (String × Json) := []
  deriving DecidableEq

/-- `content.strip().lower()`, the normalisation inside `Skill.id`
(ASCII lower-casing models Python `str.lower`). -/
def pyNormalize (s : String) : String :=
  ((pyStripL s.toList).map Char.toLower).asString

/-- `Skill.id`: the xxh64 hex digest of the normalised content. -/
def skillId (content : String) : String :=
  toHex16 (xxh64 0 (utf8Encode (pyNormalize content)))

structure TrainingSample where
  instruction : String
  response : String
  system_prompt : String := ""
  skill_id : String
  strategy : SynthesisStrategy
  difficulty : String := "medium"
  quality_score : Option ℚ := none
  metadata : List (String × Json) := []
  deriving DecidableEq

structure QualityVerdict where
  clarity : ℚ
  accuracy : ℚ
  helpfulness : ℚ
  alignment : ℚ
  value : ℚ
  reasoning : String := ""
  deriving DecidableEq

/-- The pydantic constructor of `QualityVerdict`: every sub-score must
satisfy `ge=1, le=5`; `none` models the `ValidationError`. -/
def mkQualityVerdict (c a h al v : ℚ) (reasoning : String) : Option QualityVerdict :=
  if 1 ≤ c ∧ c ≤ 5 ∧ 1 ≤ a ∧ a ≤ 5 ∧ 1 ≤ h ∧ h ≤ 5 ∧ 1 ≤ al ∧ al ≤ 5 ∧ 1 ≤ v ∧ v ≤ 5 then
    some ⟨c, a, h, al, v, reasoning⟩
  else none

/-- Round half to even, the tie-breaking of Python `round`. -/
def roundHalfEven (x : ℚ) : ℤ :=
  if x - ⌊x⌋ < 1 / 2 then ⌊x⌋
  else if 1 / 2 < x - ⌊x⌋ then ⌊x⌋ + 1
  else if ⌊x⌋ % 2 = 0 then ⌊x⌋ else ⌊x⌋ + 1

/-- Python `round(x, 2)` on the rational model of floats. -/
def round2 (x : ℚ) : ℚ := (roundHalfEven (100 * x) : ℚ) / 100

/-- The computed `overall` field: the rounded mean of the sub-scores. -/
def QualityVerdict.overall (q : QualityVerdict) : ℚ :=
  round2 ((q.clarity + q.accuracy + q.helpfulness + q.alignment + q.value) / 5)

/-! ### Configuration defaults from `skill_synth/config.py` -/

structure SkillFilterConfig where
  min_length : ℕ := 50
  max_length : ℕ := 10000
  min_words : ℕ := 10
  ascii_ratio : ℚ := 7 / 10
  blacklist_patterns : List String := []

structure LLMQualityConfig where
  enabled : Bool := true
  sample_ratio : ℚ := 1 / 5
  min_overall_score : ℚ := 7 / 2

/-! ### Heuristic skill filter from `skill_synth/filters/heuristic.py` -/

/-- Case-sensitive substring test (the compiled `re.escape` patterns
match literal substrings). -/
def containsSub (l sub : List Char) : Bool :=
  (List.range (l.length + 1)).any (fun i => sub.isPrefixOf (l.drop i))

def lowerL (l : List Char) : List Char := l.map Char.toLower

/-- `HeuristicFilter._accept`. -/
def acceptSkill (cfg : SkillFilterConfig) (skl : Skill) : Bool :=
  let content := pyStripL skl.content.toList
  if content.length < cfg.min_length || cfg.max_length < content.length then false
  else if (pyWords content).length < cfg.min_words then false
  else if !content.isEmpty &&
      decide (((content.filter (fun c => c.toNat < 128)).length : ℚ) / (content.length : ℚ)
        < cfg.ascii_ratio) then false
  else if cfg.blacklist_patterns.any
      (fun p => containsSub (lowerL content) (lowerL p.toList)) then false
  else true

/-- `HeuristicFilter.filter`. -/
def heuristicFilter (cfg : SkillFilterConfig) (skills : List Skill) : List Skill :=
  skills.filter (acceptSkill cfg)

/-! ### LLM quality filter from `skill_synth/filters/llm_filter.py`

The random subset picked by `random.sample` is modelled by the list
`chosen` of selected indices into `samples` (Python object identity,
`id(s)`, becomes the list index: the pipeline builds each sample as a
fresh object).  The judge LLM call for index `i` is modelled by
`judge i`: `none` is a grading failure (the caught exception), and
`some v` a parsed verdict. -/

/-- Lines 52-53 of `llm_filter.py`:
`sample_count = max(1, int(len(samples) * sample_ratio))` (Python `int`
truncates, i.e. floors for non-negative values). -/
def sampleCount (ratio : ℚ) (total : ℕ) : ℕ :=
  max 1 (Int.toNat ⌊(total : ℚ) * ratio⌋)

/-- Size of `to_evaluate`: `random.sample(samples, min(sample_count, len(samples)))`. -/
def numEvaluated (ratio : ℚ) (total : ℕ) : ℕ :=
  min (sampleCount ratio total) total

def qListMin : List ℚ → ℚ
  | [] => 0
  | h :: t => t.foldl min h

def qListMax : List ℚ → ℚ
  | [] => 0
  | h :: t => t.foldl max h

/-- The in-place `sample.quality_score = verdict.overall` assignment,
applied when rebuilding the retained list. -/
def assignScore (scored : List (ℕ × QualityVerdict)) (p : ℕ × TrainingSample) : TrainingSample :=
  match scored.find? (fun q => q.1 == p.1) with
  | some q => { p.2 with quality_score := some q.2.overall }
  | none => p.2

/-- The `verdicts`/`scored` list: selected indices whose grading
succeeded, with their verdicts, in selection order. -/
def llmScored (chosen : List ℕ) (judge : ℕ → Option QualityVerdict) :
    List (ℕ × QualityVerdict) :=
  chosen.filterMap (fun i => (judge i).map (fun v => (i, v)))

/-- The `fail_ids` set: evaluated samples scoring below the threshold. -/
def llmFailIds (cfg : LLMQualityConfig) (scored : List (ℕ × QualityVerdict)) : List ℕ :=
  scored.filterMap (fun p => if p.2.overall < cfg.min_overall_score then some p.1 else none)

/-- The `stats` bag computed when at least one verdict was obtained. -/
def llmStats (cfg : LLMQualityConfig) (scored : List (ℕ × QualityVerdict)) :
    List (String × ℚ) :=
  let scores := scored.map (fun p => p.2.overall)
  let passed := (scores.filter (fun sc => decide (cfg.min_overall_score ≤ sc))).length
  [("evaluated", (scored.length : ℚ)),
   ("mean_score", round2 (scores.sum / (scores.length : ℚ))),
   ("min_score", qListMin scores),
   ("max_score", qListMax scores),
   ("pass_rate", round2 ((passed : ℚ) / (scored.length : ℚ)))]

/-- `LLMQualityFilter.filter`. -/
def llmFilter (cfg : LLMQualityConfig) (samples : List TrainingSample)
    (chosen : List ℕ) (judge : ℕ → Option QualityVerdict) :
    List TrainingSample × List (String × ℚ) :=
  if !cfg.enabled || samples.isEmpty then (samples, [])
  else
    let scored := llmScored chosen judge
    if scored.isEmpty then (samples, [("evaluated", 0)])
    else
      ((samples.enum.filter (fun p => !(llmFailIds cfg scored).contains p.1)).map
         (assignScore scored),
       llmStats cfg scored)

/-! Spec-side description of the retained set, written from the claim:
evaluated samples keep their score and survive iff the overall score
reaches the threshold; unselected samples and samples whose grading
failed are kept unconditionally. -/

def claimKeep (cfg : LLMQualityConfig) (chosen : List ℕ)
    (judge : ℕ → Option QualityVerdict) (i : ℕ) : Bool :=
  if chosen.contains i then
    match judge i with
    | some v => decide (cfg.min_overall_score ≤ v.overall)
    | none => true
  else true

def claimMark (chosen : List ℕ) (judge : ℕ → Option QualityVerdict)
    (p : ℕ × TrainingSample) : TrainingSample :=
  if chosen.contains p.1 then
    match judge p.1 with
    | some v => { p.2 with quality_score := some v.overall }
    | none => p.2
  else p.2

def claimRetained (cfg : LLMQualityConfig) (samples : List TrainingSample)
    (chosen : List ℕ) (judge : ℕ → Option QualityVerdict) : List TrainingSample :=
  (samples.enum.filter (fun p => claimKeep cfg chosen judge p.1)).map (claimMark chosen judge)

/-! ### Synthesizer from `skill_synth/synthesis/synthesizer.py`

The LLM call `generate_json` for a work item is modelled by `oracle`,
returning `Except`: an `error` is any exception raised while building,
sending or parsing the request (the prompt text itself is opaque to the
claims and is not modelled). -/

structure StrategyConfig where
  name : String
  samples_per_skill : ℕ := 3
  deriving DecidableEq

/-- The keys of `STRATEGY_PROMPTS` in `synthesis/prompts.py`. -/
def strategyPromptKeys : List String :=
  ["direct_task", "scenario_based", "conversation", "edge_case"]

/-- Python `dict.get(key, default)`. -/
def jsonGet (fields : List (String × Json)) (key : String) (dflt : Json) : Json :=
  match fields.lookup key with
  | some v => v
  | none => dflt

/-- Calling `.strip()` on a non-string raises `AttributeError`;
likewise a non-string `difficulty` fails pydantic validation. -/
def asStr : Json → Except String String
  | .str s => .ok s
  | _ => .error "expected a string"

def mkSampleMeta (skl : Skill) (fields : List (String × Json)) : List (String × Json) :=
  [("skill_name", .str skl.name),
   ("edge_type", jsonGet fields "edge_type" (.str "")),
   ("scenario", jsonGet fields "scenario" (.str ""))]

/-- The entry loop of `Synthesizer._parse_result`: skip non-dict
entries, strip `instruction` and `response`, skip entries where either
is empty, build a `TrainingSample` otherwise. -/
def parseEntries (skl : Skill) (strategy : SynthesisStrategy) :
    List Json → Except String (List TrainingSample)
  | [] => .ok []
  | item :: rest =>
    match item with
    | .obj fields =>
      match asStr (jsonGet fields "instruction" (.str "")) with
      | .error e => .error e
      | .ok instrRaw =>
        match asStr (jsonGet fields "response" (.str "")) with
        | .error e => .error e
        | .ok respRaw =>
          if pyStrip instrRaw = "" ∨ pyStrip respRaw = "" then parseEntries skl strategy rest
          else
            match asStr (jsonGet fields "difficulty" (.str "medium")) with
            | .error e => .error e
            | .ok difficulty =>
              match parseEntries skl strategy rest with
              | .error e => .error e
              | .ok tailSamples =>
                .ok ({ instruction := pyStrip instrRaw, response := pyStrip respRaw,
                       system_prompt := "", skill_id := skillId skl.content,
                       strategy := strategy, difficulty := difficulty,
                       quality_score := none, metadata := mkSampleMeta skl fields } :: tailSamples)
    | _ => parseEntries skl strategy rest

/-- The Python `for item in items` loop applied to the extracted
`items` value: lists iterate their elements; strings iterate their
characters and dicts their keys (none of which are dicts, so every
entry is skipped); any other value raises `TypeError`. -/
def iterSamples (skl : Skill) (strategy : SynthesisStrategy) (items : Json) :
    Except String (List TrainingSample) :=
  match items with
  | .arr l => parseEntries skl strategy l
  | .str _ => .ok []
  | .obj _ => .ok []
  | _ => .error "object is not iterable"

/-- `Synthesizer._parse_result`. -/
def parseResult (result : Json) (skl : Skill) (strategyName : String) :
    Except String (List TrainingSample) :=
  match strategyOfString strategyName with
  | none => .error "invalid strategy"
  | some strategy =>
    match result with
    | .obj fields => iterSamples skl strategy (jsonGet fields "samples" (.arr []))
    | .arr _ => iterSamples skl strategy result
    | _ => .ok []

/-- The body of the `try` block of `_synthesize_one`: the LLM call
followed by `_parse_result`. -/
def synthRaw (oracle : Skill → String → ℕ → Except String Json)
    (skl : Skill) (sc : StrategyConfig) : Except String (List TrainingSample) :=
  match oracle skl sc.name sc.samples_per_skill with
  | .error e => .error e
  | .ok r => parseResult r skl sc.name

/-- `Synthesizer._synthesize_one`: unknown strategies yield no samples
before the `try`; any exception inside the `try` is caught and turned
into zero samples. -/
def synthesizeOne (oracle : Skill → String → ℕ → Except String Json)
    (skl : Skill) (sc : StrategyConfig) : List TrainingSample :=
  if strategyPromptKeys.contains sc.name then
    match synthRaw oracle skl sc with
    | .ok s => s
    | .error _ => []
  else []

/-- The work items built by the nested loops of `synthesize_all`. -/
def workItems (skills : List Skill) (strategies : List StrategyConfig) :
    List (Skill × StrategyConfig) :=
  skills.flatMap (fun s => strategies.map (fun c => (s, c)))

/-- `Synthesizer.synthesize_all`: `asyncio.as_completed` hands back the
per-item results in a nondeterministic completion order, modelled by
the index list `order`; the samples of each completed item are appended.
The returned `Except` records that the function itself may in principle
propagate an exception. -/
def synthesizeAll (oracle : Skill → String → ℕ → Except String Json)
    (skills : List Skill) (strategies : List StrategyConfig) (order : List ℕ) :
    Except String (List TrainingSample) :=
  let items := workItems skills strategies
  Except.ok ((order.filterMap (fun i => items.get? i)).flatMap
    (fun w => synthesizeOne oracle w.1 w.2))

/-! ### Collector aggregation from `skill_synth/collectors/__init__.py`

The collectors themselves do network I/O; `collect_all` is modelled
from the point where the per-collector result lists are in hand (a
collector that raised has already been converted to `[]` by `_run`). -/

def dedupGo (seen : List String) : List Skill → List Skill
  | [] => []
  | s :: rest =>
    if seen.contains (skillId s.content) then dedupGo seen rest
    else s :: dedupGo (skillId s.content :: seen) rest

/-- The aggregation and deduplication stage of `collect_all`. -/
def collect_all (results : List (List Skill)) : List Skill :=
  dedupGo [] results.flatten

/-! ## Theorems -/

/-! ### C2: size of the graded subset -/

/-- C2, counterexample: with `total = 2` and `sample_ratio = 3/4`
(both float-exact), the code computes `max(1, int(2 * 0.75)) = 1`
graded samples while the claim's `max(1, ceil(0.75 * 2))` is `2`. -/
theorem numEvaluated_ceil_counterexample :
    numEvaluated (3 / 4) 2 ≠ max 1 (Int.toNat ⌈(3 / 4 : ℚ) * (2 : ℕ)⌉) := by
  have h1 : ((2 : ℕ) : ℚ) * (3 / 4) = 3 / 2 := by norm_num
  have h2 : (3 / 4 : ℚ) * ((2 : ℕ) : ℚ) = 3 / 2 := by norm_num
  have hf : ⌊(3 / 2 : ℚ)⌋ = 1 := by
    rw [Int.floor_eq_iff]
    norm_num
  have hc : ⌈(3 / 2 : ℚ)⌉ = 2 := by
    rw [Int.ceil_eq_iff]
    norm_num
  simp only [numEvaluated, sampleCount, h1, h2, hf, hc]
  decide

/-- C2 (amended): for positive `total` and `ratio` in `(0, 1]` the
number of samples selected for grading is `max(1, floor(ratio * total))`
(Python `int()` truncates, it does not take a ceiling), and it never
exceeds `total`. -/
theorem numEvaluated_floor_spec (ratio : ℚ) (total : ℕ) (htot : 0 < total)
    (_hr0 : 0 < ratio) (hr1 : ratio ≤ 1) :
    numEvaluated ratio total = max 1 (Int.toNat ⌊(total : ℚ) * ratio⌋) ∧
    numEvaluated ratio total ≤ total := by
  have hmul : (total : ℚ) * ratio ≤ (total : ℚ) := by
    calc (total : ℚ) * ratio ≤ (total : ℚ) * 1 := by
          exact mul_le_mul_of_nonneg_left hr1 (by positivity)
      _ = (total : ℚ) := mul_one _
  have hfl : ⌊(total : ℚ) * ratio⌋ ≤ (total : ℤ) := by
    have := Int.floor_le_floor hmul
    simpa using this
  have hle : Int.toNat ⌊(total : ℚ) * ratio⌋ ≤ total := by
    omega
  have hsc : sampleCount ratio total ≤ total := by
    unfold sampleCount
    omega
  constructor
  · unfold numEvaluated
    unfold sampleCount at hsc ⊢
    omega
  · unfold numEvaluated
    omega

/-- C2 amended-claim witness at `ratio = 1/2`, `total = 3`. -/
theorem numEvaluated_floor_spec_witness :
    numEvaluated (1 / 2) 3 = max 1 (Int.toNat ⌊((3 : ℕ) : ℚ) * (1 / 2)⌋) ∧
    numEvaluated (1 / 2) 3 ≤ 3 :=
  numEvaluated_floor_spec (1 / 2) 3 (by norm_num) (by norm_num) (by norm_num)

/-! ### C7: quality verdict bounds -/

theorem roundHalfEven_bounds (x : ℚ) (hl : 100 ≤ x) (hu : x ≤ 500) :
    100 ≤ roundHalfEven x ∧ roundHalfEven x ≤ 500 := by
  have hf1 : (100 : ℤ) ≤ ⌊x⌋ := by
    exact_mod_cast Int.le_floor.mpr (by exact_mod_cast hl)
  have hfq : (⌊x⌋ : ℚ) ≤ x := Int.floor_le x
  have hf2 : ⌊x⌋ ≤ 500 := by
    have h5 : (⌊x⌋ : ℚ) ≤ 500 := le_trans hfq hu
    exact_mod_cast h5
  have key : ¬(x - (⌊x⌋ : ℚ) < 1 / 2) → ⌊x⌋ ≤ 499 := by
    intro hn
    by_contra hgt
    have h500 : ⌊x⌋ = 500 := by omega
    apply hn
    rw [h500]
    push_cast
    linarith
  unfold roundHalfEven
  split_ifs with h1 h2 h3
  · exact ⟨hf1, hf2⟩
  · have := key h1
    omega
  · exact ⟨hf1, hf2⟩
  · have := key h1
    omega

theorem round2_bounds (x : ℚ) (hl : 1 ≤ x) (hu : x ≤ 5) :
    1 ≤ round2 x ∧ round2 x ≤ 5 := by
  have h := roundHalfEven_bounds (100 * x) (by linarith) (by linarith)
  have h1 : (100 : ℚ) ≤ (roundHalfEven (100 * x) : ℚ) := by exact_mod_cast h.1
  have h2 : ((roundHalfEven (100 * x) : ℚ)) ≤ 500 := by exact_mod_cast h.2
  unfold round2
  constructor
  · rw [le_div_iff₀ (by norm_num)]
    linarith
  · rw [div_le_iff₀ (by norm_num)]
    linarith

/-- C7: for sub-scores each in `[1, 5]` the pydantic constructor
succeeds, the derived `overall` equals the mean of the five sub-scores
rounded to two decimals and lies in `[1, 5]`; and any successfully
constructed verdict has all sub-scores in range (equivalently,
out-of-range sub-scores are rejected with a `ValidationError`). -/
theorem qualityVerdict_overall_spec :
    (∀ c a h al v r, 1 ≤ c → c ≤ 5 → 1 ≤ a → a ≤ 5 → 1 ≤ h → h ≤ 5 →
        1 ≤ al → al ≤ 5 → 1 ≤ v → v ≤ 5 →
        ∃ q, mkQualityVerdict c a h al v r = some q ∧
          q.overall = round2 ((c + a + h + al + v) / 5) ∧
          1 ≤ q.overall ∧ q.overall ≤ 5) ∧
    (∀ c a h al v r q, mkQualityVerdict c a h al v r = some q →
        (1 ≤ c ∧ c ≤ 5) ∧ (1 ≤ a ∧ a ≤ 5) ∧ (1 ≤ h ∧ h ≤ 5) ∧
        (1 ≤ al ∧ al ≤ 5) ∧ (1 ≤ v ∧ v ≤ 5)) := by
  constructor
  · intro c a h al v r hc1 hc2 ha1 ha2 hh1 hh2 hal1 hal2 hv1 hv2
    refine ⟨⟨c, a, h, al, v, r⟩, ?_, rfl, ?_⟩
    · unfold mkQualityVerdict
      rw [if_pos]
      exact ⟨hc1, hc2, ha1, ha2, hh1, hh2, hal1, hal2, hv1, hv2⟩
    · have hmean1 : (1 : ℚ) ≤ (c + a + h + al + v) / 5 := by linarith
      have hmean2 : (c + a + h + al + v) / 5 ≤ 5 := by linarith
      have hb := round2_bounds _ hmean1 hmean2
      simpa [QualityVerdict.overall] using hb
  · intro c a h al v r q hq
    unfold mkQualityVerdict at hq
    by_cases hcond : 1 ≤ c ∧ c ≤ 5 ∧ 1 ≤ a ∧ a ≤ 5 ∧ 1 ≤ h ∧ h ≤ 5 ∧
        1 ≤ al ∧ al ≤ 5 ∧ 1 ≤ v ∧ v ≤ 5
    · tauto
    · rw [if_neg hcond] at hq
      exact absurd hq (by simp)

/-! ### C6 and C3: behaviour of the LLM quality filter -/

/-- A concrete sample for counterexamples and witnesses. -/
def demoSample : TrainingSample :=
  { instruction := "Q", response := "A", skill_id := "id0", strategy := .direct_task }

/-- C6, counterexample: with the judge enabled, one sample selected and
its grading failing, the statistics bag is `evaluated = 0`, not empty. -/
theorem llmFilter_zero_verdicts_counterexample :
    (llmFilter {} [demoSample] [0] (fun _ => none)).2 ≠ [] := by decide

/-- C6 (amended): when the judge is enabled, the input is nonempty and
every selected sample's grading fails, the filter returns the input
samples unchanged together with the statistics bag containing exactly
`evaluated = 0` (the bag is empty only when the judge is disabled or
the input is empty). -/
theorem llmFilter_zero_verdicts (cfg : LLMQualityConfig) (samples : List TrainingSample)
    (chosen : List ℕ) (judge : ℕ → Option QualityVerdict)
    (hen : cfg.enabled = true) (hne : samples ≠ [])
    (hall : ∀ i ∈ chosen, judge i = none) :
    llmFilter cfg samples chosen judge = (samples, [("evaluated", 0)]) := by
  have hscored : llmScored chosen judge = [] := by
    rw [llmScored]
    induction chosen with
    | nil => rfl
    | cons c cs ih =>
      rw [List.filterMap_cons, hall c (List.mem_cons_self c cs)]
      exact ih (fun i hi => hall i (List.mem_cons_of_mem c hi))
  have hne' : samples.isEmpty = false := by
    cases samples
    · exact absurd rfl hne
    · rfl
  simp [llmFilter, hen, hne', hscored]

/-- C6 amended-claim witness. -/
theorem llmFilter_zero_verdicts_witness :
    llmFilter {} [demoSample] [0, 1] (fun _ => none) = ([demoSample], [("evaluated", 0)]) :=
  llmFilter_zero_verdicts {} [demoSample] [0, 1] (fun _ => none) rfl
    (by simp) (fun i _ => rfl)

theorem scored_find_eq (chosen : List ℕ) (judge : ℕ → Option QualityVerdict) (j : ℕ) :
    (llmScored chosen judge).find? (fun q => q.1 == j)
      = if j ∈ chosen then (judge j).map (fun v => (j, v)) else none := by
  induction chosen with
  | nil => simp [llmScored]
  | cons c cs ih =>
    rw [llmScored, List.filterMap_cons]
    rw [llmScored] at ih
    by_cases hcj : c = j
    · subst hcj
      cases hj : judge c with
      | none =>
        simp only [hj, Option.map_none']
        rw [ih]
        by_cases hmem : c ∈ cs <;> simp [hmem, hj]
      | some v =>
        simp [hj, List.find?_cons]
    · have hmemeq : (j ∈ c :: cs) ↔ (j ∈ cs) := by
        simp [List.mem_cons, Ne.symm hcj]
      cases hj : judge c with
      | none =>
        simp only [hj, Option.map_none']
        rw [ih]
        by_cases hmem : j ∈ cs <;> simp [hmem, hmemeq]
      | some v =>
        simp only [hj, Option.map_some']
        rw [List.find?_cons]
        have hbeq : ((c, v).1 == j) = false := by
          simp [hcj]
        rw [hbeq, ih]
        by_cases hmem : j ∈ cs <;> simp [hmem, hmemeq]

theorem scored_mem_iff (chosen : List ℕ) (judge : ℕ → Option QualityVerdict)
    (j : ℕ) (v : QualityVerdict) :
    (j, v) ∈ llmScored chosen judge ↔ j ∈ chosen ∧ judge j = some v := by
  rw [llmScored, List.mem_filterMap]
  constructor
  · rintro ⟨i, hi, heq⟩
    cases hji : judge i with
    | none => rw [hji] at heq; simp at heq
    | some w =>
      rw [hji] at heq
      simp only [Option.map_some', Option.some_inj, Prod.mk.injEq] at heq
      obtain ⟨rfl, rfl⟩ := heq
      exact ⟨hi, hji⟩
  · rintro ⟨hj, hjv⟩
    exact ⟨j, hj, by rw [hjv]; rfl⟩

theorem failIds_mem_iff (cfg : LLMQualityConfig) (chosen : List ℕ)
    (judge : ℕ → Option QualityVerdict) (i : ℕ) :
    i ∈ llmFailIds cfg (llmScored chosen judge) ↔
      ∃ v, (i ∈ chosen ∧ judge i = some v) ∧ v.overall < cfg.min_overall_score := by
  rw [llmFailIds, List.mem_filterMap]
  constructor
  · rintro ⟨⟨j, v⟩, hmem, heq⟩
    by_cases hlt : v.overall < cfg.min_overall_score
    · rw [if_pos hlt] at heq
      have hji : j = i := by simpa using heq
      rw [hji] at hmem
      exact ⟨v, (scored_mem_iff chosen judge i v).mp hmem, hlt⟩
    · rw [if_neg hlt] at heq
      exact absurd heq (by simp)
  · rintro ⟨v, hm, hlt⟩
    exact ⟨(i, v), (scored_mem_iff chosen judge i v).mpr hm, by rw [if_pos hlt]⟩

/-- C3: with the judge enabled, the retained list equals the spec-side
description `claimRetained`: evaluated samples with overall score at
least the threshold, plus every sample never selected or whose grading
failed; evaluated samples below the threshold are excluded, and
evaluated samples carry their score. -/
theorem llmFilter_retention (cfg : LLMQualityConfig) (samples : List TrainingSample)
    (chosen : List ℕ) (judge : ℕ → Option QualityVerdict) (hen : cfg.enabled = true) :
    (llmFilter cfg samples chosen judge).1 = claimRetained cfg samples chosen judge := by
  have hmark : ∀ p : ℕ × TrainingSample,
      assignScore (llmScored chosen judge) p = claimMark chosen judge p := by
    intro p
    rw [assignScore, claimMark, scored_find_eq]
    by_cases hmem : p.1 ∈ chosen
    · cases hj : judge p.1 <;> simp [hmem, hj]
    · simp [hmem]
  have hkeep : ∀ i : ℕ,
      (!decide (i ∈ llmFailIds cfg (llmScored chosen judge))) = claimKeep cfg chosen judge i := by
    intro i
    by_cases hsel : i ∈ chosen
    · cases hj : judge i with
      | none =>
        have h1 : i ∉ llmFailIds cfg (llmScored chosen judge) := by
          intro hmem
          obtain ⟨w, ⟨_, hw⟩, _⟩ := (failIds_mem_iff cfg chosen judge i).mp hmem
          rw [hj] at hw
          exact Option.noConfusion hw
        simp [h1, claimKeep, hsel, hj]
      | some v =>
        by_cases hlt : v.overall < cfg.min_overall_score
        · have h1 : i ∈ llmFailIds cfg (llmScored chosen judge) :=
            (failIds_mem_iff cfg chosen judge i).mpr ⟨v, ⟨hsel, hj⟩, hlt⟩
          simp [h1, claimKeep, hsel, hj, not_le.mpr hlt]
        · have h1 : i ∉ llmFailIds cfg (llmScored chosen judge) := by
            intro hmem
            obtain ⟨w, ⟨_, hw⟩, hwlt⟩ := (failIds_mem_iff cfg chosen judge i).mp hmem
            rw [hj] at hw
            obtain rfl : v = w := by simpa using hw
            exact hlt hwlt
          simp [h1, claimKeep, hsel, hj, le_of_not_lt hlt]
    · have h1 : i ∉ llmFailIds cfg (llmScored chosen judge) := by
        intro hmem
        obtain ⟨w, ⟨hc, _⟩, _⟩ := (failIds_mem_iff cfg chosen judge i).mp hmem
        exact hsel hc
      simp [h1, claimKeep, hsel]
  cases hsamples : samples with
  | nil => simp [llmFilter, claimRetained]
  | cons s0 srest =>
    rw [← hsamples]
    have hsam : samples.isEmpty = false := by rw [hsamples]; rfl
    by_cases hsc : (llmScored chosen judge).isEmpty = true
    · have hnil : llmScored chosen judge = [] := by
        cases h : llmScored chosen judge
        · rfl
        · rw [h] at hsc
          exact absurd hsc (by simp)
      have hnone : ∀ i ∈ chosen, judge i = none := by
        intro i hi
        cases hj : judge i with
        | none => rfl
        | some v =>
          exfalso
          have hv : (i, v) ∈ llmScored chosen judge :=
            (scored_mem_iff chosen judge i v).mpr ⟨hi, hj⟩
          rw [hnil] at hv
          exact absurd hv (List.not_mem_nil _)
      have hl : (llmFilter cfg samples chosen judge).1 = samples := by
        simp [llmFilter, hen, hsam, hsc]
      have hkeep2 : ∀ p ∈ samples.enum, claimKeep cfg chosen judge p.1 = true := by
        intro p _
        by_cases hc : p.1 ∈ chosen
        · simp [claimKeep, hc, hnone p.1 hc]
        · simp [claimKeep, hc]
      have hmark2 : ∀ p ∈ samples.enum, claimMark chosen judge p = p.2 := by
        intro p _
        by_cases hc : p.1 ∈ chosen
        · simp [claimMark, hc, hnone p.1 hc]
        · simp [claimMark, hc]
      rw [hl, claimRetained, List.filter_congr hkeep2]
      rw [List.filter_eq_self.mpr (fun a _ => rfl)]
      rw [List.map_congr_left hmark2]
      exact (List.enum_map_snd samples).symm
    · have hsc2 : (llmScored chosen judge).isEmpty = false := by
        cases h : (llmScored chosen judge).isEmpty
        · rfl
        · exact absurd h hsc
      have hl : (llmFilter cfg samples chosen judge).1 =
          (samples.enum.filter
            (fun p => !decide (p.1 ∈ llmFailIds cfg (llmScored chosen judge)))).map
            (assignScore (llmScored chosen judge)) := by
        simp [llmFilter, hen, hsam, hsc2]
      rw [hl, claimRetained]
      rw [List.filter_congr (fun p _ => hkeep p.1)]
      exact List.map_congr_left (fun p _ => hmark p)

/-- C3 witness: one selected sample whose grading fails is retained. -/
theorem llmFilter_retention_witness :
    (llmFilter {} [demoSample] [0] (fun _ => none)).1 =
      claimRetained {} [demoSample] [0] (fun _ => none) :=
  llmFilter_retention {} [demoSample] [0] (fun _ => none) rfl

/-! ### C8 and C10: content-hash identity and deduplication -/

theorem dedupGo_sublist (seen : List String) (l : List Skill) :
    (dedupGo seen l).Sublist l := by
  induction l generalizing seen with
  | nil => simp [dedupGo]
  | cons s rest ih =>
    rw [dedupGo]
    by_cases h : seen.contains (skillId s.content) = true
    · rw [if_pos h]
      exact List.Sublist.cons s (ih seen)
    · rw [if_neg h]
      exact List.Sublist.cons₂ s (ih _)

theorem dedupGo_filter (k : String) (seen : List String) (l : List Skill) :
    (dedupGo seen l).filter (fun s => skillId s.content == k)
      = if k ∈ seen then [] else (l.filter (fun s => skillId s.content == k)).take 1 := by
  induction l generalizing seen with
  | nil => by_cases h : k ∈ seen <;> simp [dedupGo, h]
  | cons s rest ih =>
    rw [dedupGo]
    by_cases hs : seen.contains (skillId s.content) = true
    · rw [if_pos hs]
      rw [ih seen]
      have hsid : skillId s.content ∈ seen := by
        simpa [List.contains, List.elem_iff] using hs
      by_cases hk : k ∈ seen
      · simp [hk]
      · have hne : (skillId s.content == k) = false := by
          simp only [beq_eq_false_iff_ne, ne_eq]
          intro he
          rw [he] at hsid
          exact hk hsid
        simp [hk, List.filter_cons, hne]
    · rw [if_neg hs]
      have hsid : skillId s.content ∉ seen := by
        intro hmem
        exact hs (by simpa [List.contains, List.elem_iff] using hmem)
      cases hbeq : (skillId s.content == k) with
      | true =>
        have hkeq : skillId s.content = k := by simpa using hbeq
        subst hkeq
        rw [List.filter_cons, List.filter_cons, ih (skillId s.content :: seen)]
        simp [hsid]
      | false =>
        have hkne : skillId s.content ≠ k := by simpa using hbeq
        rw [List.filter_cons, List.filter_cons, hbeq]
        simp only [Bool.false_eq_true, if_false]
        rw [ih (skillId s.content :: seen)]
        have hmemiff : (k ∈ skillId s.content :: seen) ↔ (k ∈ seen) := by
          simp [List.mem_cons, Ne.symm hkne]
        by_cases hk : k ∈ seen <;> simp [hk, hmemiff]

/-- C10: the aggregated list of `collect_all` is an order-preserving
subsequence of the concatenation of the collector results, and for each
content-hash id exactly the first-encountered skill with that id is
kept (the filter by any id equals the first element of the
concatenation's filter by that id). -/
theorem collect_all_first_occurrence (results : List (List Skill)) :
    (collect_all results).Sublist results.flatten ∧
    ∀ k : String, (collect_all results).filter (fun s => skillId s.content == k)
        = (results.flatten.filter (fun s => skillId s.content == k)).take 1 := by
  constructor
  · exact dedupGo_sublist [] results.flatten
  · intro k
    rw [collect_all, dedupGo_filter]
    simp

/-- C8: texts equal after trimming and lower-casing produce equal skill
ids, and aggregating collector results containing two skills with the
same normalized content leaves exactly one entry with that id. -/
theorem skillId_normalization (T1 T2 : String) (h : pyNormalize T1 = pyNormalize T2) :
    skillId T1 = skillId T2 ∧
    ∀ (results : List (List Skill)) (s1 s2 : Skill),
      s1 ∈ results.flatten → s2 ∈ results.flatten →
      s1.content = T1 → s2.content = T2 →
      ((collect_all results).filter (fun s => skillId s.content == skillId T1)).length = 1 := by
  have hid : skillId T1 = skillId T2 := by
    rw [skillId, h, skillId]
  refine ⟨hid, ?_⟩
  intro results s1 s2 h1 _h2 hc1 _hc2
  have hfil : (collect_all results).filter (fun s => skillId s.content == skillId T1)
      = (results.flatten.filter (fun s => skillId s.content == skillId T1)).take 1 := by
    rw [collect_all, dedupGo_filter]
    simp
  rw [hfil]
  have hmem : s1 ∈ results.flatten.filter (fun s => skillId s.content == skillId T1) := by
    rw [List.mem_filter]
    refine ⟨h1, ?_⟩
    rw [hc1]
    exact beq_self_eq_true _
  have hne : results.flatten.filter (fun s => skillId s.content == skillId T1) ≠ [] := by
    intro hnil
    rw [hnil] at hmem
    exact absurd hmem (List.not_mem_nil _)
  have hpos : 0 < (results.flatten.filter (fun s => skillId s.content == skillId T1)).length :=
    List.length_pos.mpr hne
  rw [List.length_take]
  omega

/-- C8 witness: two texts equal after strip and lower. -/
theorem skillId_normalization_witness :
    skillId "  Hello " = skillId "hello" ∧
    ∀ (results : List (List Skill)) (s1 s2 : Skill),
      s1 ∈ results.flatten → s2 ∈ results.flatten →
      s1.content = "  Hello " → s2.content = "hello" →
      ((collect_all results).filter
        (fun s => skillId s.content == skillId "  Hello ")).length = 1 :=
  skillId_normalization "  Hello " "hello" (by decide)

/-! ### C9: heuristic skill filter on the spec's end-to-end scenario -/

/-- A 200-character content with a 90% ASCII ratio but a single word. -/
def longSingleWord : String :=
  (List.replicate 180 'a' ++ List.replicate 20 'é').asString

/-- C9, counterexample: the claim accepts every 200-character content
with 90% ASCII ratio, but a single-word such content fails the default
`min_words = 10` check and is rejected. -/
theorem heuristic_accept_counterexample :
    longSingleWord.toList.length = 200 ∧
    (longSingleWord.toList.filter (fun c => c.toNat < 128)).length = 180 ∧
    acceptSkill {} { name := "n", content := longSingleWord, source := "s" } = false := by
  refine ⟨by decide, by decide, by decide⟩

theorem rightStripP_length_le (p : Char → Bool) (l : List Char) :
    (rightStripP p l).length ≤ l.length := by
  induction l with
  | nil => simp [rightStripP]
  | cons c cs ih =>
    rw [rightStripP]
    cases hr : rightStripP p cs with
    | nil =>
      by_cases hp : p c = true
      · simp [hp]
      · have hp' : p c = false := by
          cases h : p c
          · rfl
          · exact absurd h hp
        simp [hp']
    | cons h t =>
      rw [hr] at ih
      simp only [List.length_cons] at ih ⊢
      omega

theorem dropWhileP_length_le (p : Char → Bool) (l : List Char) :
    (l.dropWhile p).length ≤ l.length := by
  induction l with
  | nil => simp
  | cons c cs ih =>
    rw [List.dropWhile_cons]
    by_cases h : p c = true
    · rw [if_pos h]
      exact le_trans ih (by simp)
    · rw [if_neg h]

theorem pyStripL_length_le (l : List Char) : (pyStripL l).length ≤ l.length :=
  le_trans (rightStripP_length_le pyIsSpace _) (dropWhileP_length_le pyIsSpace l)

/-- C9 (amended): with `min_length = 50` and the other settings at their
defaults, every skill whose content is 10 characters long is rejected;
and a skill with a 200-character content is accepted provided the
content is already stripped, at least 180 of its characters are ASCII
(a 90% ratio), and it splits into at least the default minimum of 10
whitespace-separated words. -/
theorem heuristic_accept_spec (skl10 skl200 : Skill)
    (h10 : skl10.content.toList.length = 10)
    (hstrip : pyStripL skl200.content.toList = skl200.content.toList)
    (h200 : skl200.content.toList.length = 200)
    (hascii : 180 ≤ (skl200.content.toList.filter (fun c => c.toNat < 128)).length)
    (hwords : 10 ≤ (pyWords skl200.content.toList).length) :
    acceptSkill {} skl10 = false ∧ acceptSkill {} skl200 = true := by
  constructor
  · have hlen : (pyStripL skl10.content.toList).length ≤ 10 := by
      calc (pyStripL skl10.content.toList).length
          ≤ skl10.content.toList.length := pyStripL_length_le _
        _ = 10 := h10
    simp only [acceptSkill]
    have hcond : (decide ((pyStripL skl10.content.toList).length < 50) ||
        decide (10000 < (pyStripL skl10.content.toList).length)) = true := by
      have hlt : (pyStripL skl10.content.toList).length < 50 := by omega
      simp only [Bool.or_eq_true, decide_eq_true_eq]
      exact Or.inl hlt
    rw [if_pos hcond]
  · simp only [acceptSkill]
    rw [hstrip]
    have hc1 : ¬((decide (skl200.content.toList.length < 50) ||
        decide (10000 < skl200.content.toList.length)) = true) := by
      rw [h200]
      decide
    rw [if_neg hc1]
    have hc2 : ¬((pyWords skl200.content.toList).length < 10) := by omega
    rw [if_neg hc2]
    have hc3 : ¬(((skl200.content.toList.filter (fun c => c.toNat < 128)).length : ℚ)
        / (skl200.content.toList.length : ℚ) < 7 / 10) := by
      intro hlt
      rw [h200] at hlt
      have hlen200 : ((200 : ℕ) : ℚ) = 200 := by norm_num
      rw [hlen200, div_lt_iff₀ (by norm_num : (0 : ℚ) < 200)] at hlt
      have hcount : (180 : ℚ)
          ≤ ((skl200.content.toList.filter (fun c => c.toNat < 128)).length : ℚ) := by
        exact_mod_cast hascii
      nlinarith
    have hc3b : ¬((!(skl200.content.toList).isEmpty &&
        decide (((skl200.content.toList.filter (fun c => c.toNat < 128)).length : ℚ)
          / ((skl200.content.toList).length : ℚ) < 7 / 10)) = true) := by
      intro hF
      rw [Bool.and_eq_true, decide_eq_true_eq] at hF
      exact hc3 hF.2
    rw [if_neg hc3b]
    rw [if_neg (by simp)]

/-- A 200-character, all-ASCII, 10-word, stripped content. -/
def longManyWords : String :=
  ("a b c d e f g h i ".toList ++ List.replicate 182 'x').asString

def demoSkill10 : Skill := { name := "short", content := "aaaaaaaaaa", source := "demo" }

def demoSkill200 : Skill := { name := "long", content := longManyWords, source := "demo" }

/-- C9 amended-claim witness on concrete contents. -/
theorem heuristic_accept_spec_witness :
    acceptSkill {} demoSkill10 = false ∧ acceptSkill {} demoSkill200 = true :=
  heuristic_accept_spec demoSkill10 demoSkill200 (by decide) (by decide)
    (by decide) (by decide) (by decide)

/-! ### C1: failure isolation in the synthesizer -/

theorem range_filterMap_get {α : Type} (l : List α) :
    (List.range l.length).filterMap (fun i => l.get? i) = l := by
  induction l with
  | nil => rfl
  | cons a t ih =>
    rw [List.length_cons, List.range_succ_eq_map, List.filterMap_cons]
    show a :: ((List.range t.length).map (fun i => i + 1)).filterMap
        (fun i => (a :: t).get? i) = a :: t
    rw [List.filterMap_map]
    show a :: (List.range t.length).filterMap (fun i => t.get? i) = a :: t
    rw [ih]

theorem synthRaw_error_no_samples (oracle : Skill → String → ℕ → Except String Json)
    (skl : Skill) (sc : StrategyConfig)
    (h : (synthRaw oracle skl sc).isOk = false) :
    synthesizeOne oracle skl sc = [] := by
  rw [synthesizeOne]
  by_cases hk : strategyPromptKeys.contains sc.name = true
  · rw [if_pos hk]
    cases hr : synthRaw oracle skl sc with
    | ok s =>
      rw [hr] at h
      exact absurd h (by simp [Except.isOk, Except.toBool])
    | error e => rfl
  · rw [if_neg hk]

theorem flatMap_filter_isOk (oracle : Skill → String → ℕ → Except String Json)
    (items : List (Skill × StrategyConfig)) :
    items.flatMap (fun w => synthesizeOne oracle w.1 w.2)
      = (items.filter (fun w => (synthRaw oracle w.1 w.2).isOk)).flatMap
          (fun w => synthesizeOne oracle w.1 w.2) := by
  induction items with
  | nil => rfl
  | cons w rest ih =>
    rw [List.flatMap_cons, List.filter_cons]
    cases hok : (synthRaw oracle w.1 w.2).isOk with
    | true =>
      simp only [if_true]
      rw [List.flatMap_cons, ih]
    | false =>
      have hz : synthesizeOne oracle w.1 w.2 = [] :=
        synthRaw_error_no_samples oracle w.1 w.2 hok
      simp only [Bool.false_eq_true, if_false]
      rw [hz, List.nil_append, ih]

/-- C1: whatever subset of work items fails (any exception signalled by
the oracle while building, sending or parsing that item),
`synthesize_all` returns `ok` for every completion order, the returned
samples are exactly (up to the nondeterministic completion order) those
of the non-failing work items, and every failing work item contributes
zero samples. -/
theorem synthesizeAll_failure_isolation
    (oracle : Skill → String → ℕ → Except String Json)
    (skills : List Skill) (strategies : List StrategyConfig) (order : List ℕ)
    (horder : order.Perm (List.range (workItems skills strategies).length)) :
    ∃ out, synthesizeAll oracle skills strategies order = Except.ok out ∧
      out.Perm (((workItems skills strategies).filter
          (fun w => (synthRaw oracle w.1 w.2).isOk)).flatMap
        (fun w => synthesizeOne oracle w.1 w.2)) ∧
      ∀ w ∈ workItems skills strategies, (synthRaw oracle w.1 w.2).isOk = false →
        synthesizeOne oracle w.1 w.2 = [] := by
  refine ⟨(order.filterMap (fun i => (workItems skills strategies).get? i)).flatMap
      (fun w => synthesizeOne oracle w.1 w.2), rfl, ?_,
      fun w _ hw => synthRaw_error_no_samples oracle w.1 w.2 hw⟩
  have hperm : (order.filterMap (fun i => (workItems skills strategies).get? i)).Perm
      (workItems skills strategies) := by
    have h1 := horder.filterMap (fun i => (workItems skills strategies).get? i)
    rw [range_filterMap_get] at h1
    exact h1
  rw [← flatMap_filter_isOk]
  rw [List.flatMap_def, List.flatMap_def]
  exact (hperm.map _).flatten

def demoSkill : Skill :=
  { name := "Recursion", content := "Explain recursion", source := "demo" }

/-- The stub LLM response of the spec's end-to-end scenario. -/
def stubResponse : Json :=
  Json.obj [("samples", Json.arr
    [Json.obj [("instruction", Json.str "Q1"), ("response", Json.str "A1")],
     Json.obj [("instruction", Json.str ""), ("response", Json.str "A2")]])]

/-- An oracle that succeeds for `direct_task` items and simulates a
provider error for every other work item. -/
def demoOracle : Skill → String → ℕ → Except String Json := fun _ strategyName _ =>
  if strategyName = "direct_task" then Except.ok stubResponse
  else Except.error "provider error"

def demoStrategies : List StrategyConfig :=
  [{ name := "direct_task", samples_per_skill := 3 },
   { name := "scenario_based", samples_per_skill := 3 }]

/-- C1 witness: two work items, one failing, processed in reversed
completion order. -/
theorem synthesizeAll_failure_isolation_witness :
    ∃ out, synthesizeAll demoOracle [demoSkill] demoStrategies [1, 0] = Except.ok out ∧
      out.Perm (((workItems [demoSkill] demoStrategies).filter
          (fun w => (synthRaw demoOracle w.1 w.2).isOk)).flatMap
        (fun w => synthesizeOne demoOracle w.1 w.2)) ∧
      ∀ w ∈ workItems [demoSkill] demoStrategies,
        (synthRaw demoOracle w.1 w.2).isOk = false →
          synthesizeOne demoOracle w.1 w.2 = [] :=
  synthesizeAll_failure_isolation demoOracle [demoSkill] demoStrategies [1, 0]
    (by decide)

/-! ### C4: shapes accepted by the result parser -/

/-- C4, counterexample: a mapping whose `samples` key holds a number is
not converted to zero samples by the parser itself; iterating the
number raises `TypeError` inside `_parse_result` (only the per-item
handler upstream turns this into zero samples for the work item). -/
theorem parseResult_counterexample :
    (parseResult (Json.obj [("samples", Json.num 5)]) demoSkill "direct_task").isOk
      = false := by
  rfl

/-- The sample produced from the spec's stub response. -/
def stubSample : TrainingSample :=
  { instruction := "Q1", response := "A1", system_prompt := "",
    skill_id := skillId demoSkill.content, strategy := .direct_task,
    difficulty := "medium", quality_score := none,
    metadata := [("skill_name", Json.str demoSkill.name),
                 ("edge_type", Json.str ""), ("scenario", Json.str "")] }

/-- C4 (amended): the parser accepts a mapping whose `samples` key
holds a sequence, or a bare sequence.  A top-level value of any other
type yields zero samples without raising, as does a mapping without
`samples` or one whose `samples` is a string (iterating its characters
finds no dicts).  A mapping whose `samples` value is not iterable
(e.g. a number) raises inside the parser instead, and the exception is
converted to zero samples only by the per-item handler.  Within a
sequence, non-dict entries and dict entries whose string-valued
`instruction` or `response` is missing or empty after trimming are
dropped; on the spec's stub response exactly one `TrainingSample` with
instruction `Q1` is produced. -/
theorem parseResult_shape_spec :
    (∀ (skl : Skill) (name : String), (strategyOfString name).isSome = true →
        parseResult Json.null skl name = .ok [] ∧
        (∀ b, parseResult (Json.bool b) skl name = .ok []) ∧
        (∀ q, parseResult (Json.num q) skl name = .ok []) ∧
        (∀ s, parseResult (Json.str s) skl name = .ok [])) ∧
    (∀ (skl : Skill) (name : String) fields, (strategyOfString name).isSome = true →
        fields.lookup "samples" = none →
        parseResult (Json.obj fields) skl name = .ok []) ∧
    (∀ (skl : Skill) (name : String) fields s, (strategyOfString name).isSome = true →
        fields.lookup "samples" = some (Json.str s) →
        parseResult (Json.obj fields) skl name = .ok []) ∧
    (∀ (skl : Skill) (name : String) fields q, (strategyOfString name).isSome = true →
        fields.lookup "samples" = some (Json.num q) →
        (parseResult (Json.obj fields) skl name).isOk = false) ∧
    (∀ (skl : Skill) (strategy : SynthesisStrategy) (item : Json) es,
        (∀ fs, item ≠ Json.obj fs) →
        parseEntries skl strategy (item :: es) = parseEntries skl strategy es) ∧
    (∀ (skl : Skill) (strategy : SynthesisStrategy) fields es i0 r0,
        jsonGet fields "instruction" (Json.str "") = Json.str i0 →
        jsonGet fields "response" (Json.str "") = Json.str r0 →
        (pyStrip i0 = "" ∨ pyStrip r0 = "") →
        parseEntries skl strategy (Json.obj fields :: es) = parseEntries skl strategy es) ∧
    parseResult stubResponse demoSkill "direct_task" = .ok [stubSample] := by
  refine ⟨?_, ?_, ?_, ?_, ?_, ?_, ?_⟩
  · intro skl name h
    obtain ⟨st, hst⟩ := Option.isSome_iff_exists.mp h
    refine ⟨?_, ?_, ?_, ?_⟩ <;> intros <;> simp [parseResult, hst]
  · intro skl name fields h hlook
    obtain ⟨st, hst⟩ := Option.isSome_iff_exists.mp h
    simp [parseResult, hst, jsonGet, hlook, iterSamples, parseEntries]
  · intro skl name fields s h hlook
    obtain ⟨st, hst⟩ := Option.isSome_iff_exists.mp h
    simp [parseResult, hst, jsonGet, hlook, iterSamples]
  · intro skl name fields q h hlook
    obtain ⟨st, hst⟩ := Option.isSome_iff_exists.mp h
    simp [parseResult, hst, jsonGet, hlook, iterSamples, Except.isOk, Except.toBool]
  · intro skl strategy item es hno
    cases item with
    | obj fs => exact absurd rfl (hno fs)
    | null => rfl
    | bool b => rfl
    | num q => rfl
    | str s => rfl
    | arr l => rfl
  · intro skl strategy fields es i0 r0 hi hr hempty
    rw [parseEntries, hi, hr]
    simp only [asStr]
    rw [if_pos hempty]
  · rfl

/-- C4 witness: exercises the amended shape conjuncts at concrete
inputs. -/
theorem parseResult_shape_spec_witness :
    parseResult Json.null demoSkill "direct_task" = .ok [] ∧
    parseResult (Json.obj [("other", Json.null)]) demoSkill "direct_task" = .ok [] ∧
    (parseResult (Json.obj [("samples", Json.num 5)]) demoSkill "direct_task").isOk
      = false ∧
    parseEntries demoSkill SynthesisStrategy.direct_task
        [Json.obj [("instruction", Json.str "  "), ("response", Json.str "A2")]]
      = parseEntries demoSkill SynthesisStrategy.direct_task [] :=
  ⟨(parseResult_shape_spec.1 demoSkill "direct_task" (by decide)).1,
   parseResult_shape_spec.2.1 demoSkill "direct_task" [("other", Json.null)]
     (by decide) (by decide),
   parseResult_shape_spec.2.2.2.1 demoSkill "direct_task" [("samples", Json.num 5)] 5
     (by decide) rfl,
   parseResult_shape_spec.2.2.2.2.2.1 demoSkill SynthesisStrategy.direct_task
     [("instruction", Json.str "  "), ("response", Json.str "A2")] [] "  " "A2"
     rfl rfl (Or.inl (by decide))⟩

/-! ### C5: JSON extraction is invariant under one code-fence wrap -/

theorem splitOnChar_ne_nil (sep : Char) (l : List Char) : splitOnChar sep l ≠ [] := by
  cases l with
  | nil => simp [splitOnChar]
  | cons c cs =>
    rw [splitOnChar]
    cases h : splitOnChar sep cs with
    | nil => simp
    | cons a t => by_cases hc : (c == sep) = true <;> simp [hc]

theorem splitOnChar_append (sep : Char) (u v : List Char) :
    splitOnChar sep (u ++ sep :: v) = splitOnChar sep u ++ splitOnChar sep v := by
  induction u with
  | nil =>
    rw [List.nil_append, splitOnChar]
    cases h : splitOnChar sep v with
    | nil => exact absurd h (splitOnChar_ne_nil sep v)
    | cons a t =>
      simp [splitOnChar, h]
  | cons c cs ih =>
    rw [List.cons_append, splitOnChar, splitOnChar, ih]
    cases h : splitOnChar sep cs with
    | nil => exact absurd h (splitOnChar_ne_nil sep cs)
    | cons a t =>
      rw [List.cons_append]
      by_cases hc : (c == sep) = true <;> simp [hc]

theorem joinWith_splitOnChar (sep : Char) (l : List Char) :
    joinWith sep (splitOnChar sep l) = l := by
  induction l with
  | nil => rfl
  | cons c cs ih =>
    rw [splitOnChar]
    cases h : splitOnChar sep cs with
    | nil => exact absurd h (splitOnChar_ne_nil sep cs)
    | cons a t =>
      rw [h] at ih
      show joinWith sep
          (if (c == sep) = true then [] :: a :: t else (c :: a) :: t) = c :: cs
      by_cases hc : (c == sep) = true
      · have hceq : c = sep := by simpa using hc
        subst hceq
        rw [if_pos hc, joinWith, List.nil_append, ih]
      · rw [if_neg hc]
        cases t with
        | nil =>
          exact congrArg (fun x => c :: x) ih
        | cons t0 ts =>
          show (c :: a) ++ sep :: joinWith sep (t0 :: ts) = c :: cs
          rw [List.cons_append, ← ih]
          rfl

theorem rightStripP_concat (p : Char → Bool) (u : List Char) (c : Char)
    (hc : p c = false) :
    rightStripP p (u ++ [c]) = u ++ [c] := by
  induction u with
  | nil => simp [rightStripP, hc]
  | cons a u' ih =>
    rw [List.cons_append, rightStripP, ih]
    cases u' with
    | nil => rfl
    | cons y ys => rfl

theorem rightStripP_cons_of_neg (p : Char → Bool) (c : Char) (l : List Char)
    (hc : p c = false) :
    rightStripP p (c :: l) = c :: rightStripP p l := by
  rw [rightStripP]
  cases h : rightStripP p l with
  | nil => simp [hc]
  | cons a t => rfl

theorem jsonWs_pyIsSpace (c : Char) (h : isJsonWs c = true) : pyIsSpace c = true := by
  have hc : ((c = ' ' ∨ c = '\t') ∨ c = '\n') ∨ c = '\r' := by
    simpa [isJsonWs] using h
  rcases hc with ((rfl | rfl) | rfl) | rfl <;> rfl

theorem dropWhile_py_eq_json (l : List Char)
    (h : ∀ c cs, l.dropWhile isJsonWs = c :: cs → pyIsSpace c = false) :
    l.dropWhile pyIsSpace = l.dropWhile isJsonWs := by
  induction l with
  | nil => rfl
  | cons a t ih =>
    by_cases ha : isJsonWs a = true
    · have hap : pyIsSpace a = true := jsonWs_pyIsSpace a ha
      rw [List.dropWhile_cons, List.dropWhile_cons, if_pos hap, if_pos ha]
      exact ih (fun c cs hc => h c cs (by rw [List.dropWhile_cons, if_pos ha]; exact hc))
    · have hap : pyIsSpace a = false := by
        apply h a t
        rw [List.dropWhile_cons, if_neg ha]
      rw [List.dropWhile_cons, List.dropWhile_cons, if_neg ha,
        if_neg (by rw [hap]; simp)]

theorem parseValue_head_not_fence (fuel : Nat) (l : List Char) (v : Json)
    (rest : List Char) (h : parseValue fuel l = some (v, rest)) :
    ∃ c cs, l = c :: cs ∧ pyIsSpace c = false ∧ (c = Char.ofNat 96 → False) := by
  cases fuel with
  | zero => exact Option.noConfusion h
  | succ f =>
    cases l with
    | nil => exact Option.noConfusion h
    | cons c cs =>
      refine ⟨c, cs, rfl, ?_, ?_⟩
      · cases hx : pyIsSpace c
        · rfl
        · exfalso
          have hc : ((((c = ' ' ∨ c = '\t') ∨ c = '\n') ∨ c = '\r') ∨ c = '\x0b')
              ∨ c = '\x0c' := by
            simpa [pyIsSpace] using hx
          rcases hc with ((((rfl | rfl) | rfl) | rfl) | rfl) | rfl <;>
            exact Option.noConfusion h
      · intro hceq
        subst hceq
        exact Option.noConfusion h

theorem loads_head (t : List Char) (v : Json) (h : loadsList t = some v) :
    ∃ c cs, t.dropWhile isJsonWs = c :: cs ∧ pyIsSpace c = false ∧
      (c = Char.ofNat 96 → False) := by
  rw [loadsList] at h
  cases hp : parseValue (2 * t.length + 8) (skipWs t) with
  | none =>
    rw [hp] at h
    exact Option.noConfusion h
  | some pr =>
    obtain ⟨v1, rest⟩ := pr
    exact parseValue_head_not_fence (2 * t.length + 8) (skipWs t) v1 rest hp

/-- For any text accepted by `json.loads`, the fence-stripping step is
plain stripping: the document cannot begin with a code fence. -/
theorem stripCodeFences_of_loads (t : List Char) (v : Json) (h : loadsList t = some v) :
    stripCodeFences t = pyStripL t := by
  obtain ⟨c, cs, hdrop, hsp, hbt⟩ := loads_head t v h
  have hdw : t.dropWhile pyIsSpace = t.dropWhile isJsonWs := by
    apply dropWhile_py_eq_json
    intro c' cs' hc'
    rw [hdrop] at hc'
    injection hc' with h1 _
    rw [← h1]
    exact hsp
  have hpy : pyStripL t = c :: rightStripP pyIsSpace cs := by
    rw [pyStripL, hdw]
    show rightStripP pyIsSpace (t.dropWhile isJsonWs) = _
    rw [hdrop, rightStripP_cons_of_neg _ _ _ hsp]
  have hpref : ¬(fenceMarker.isPrefixOf (pyStripL t) = true) := by
    intro hF
    rw [hpy] at hF
    rw [show fenceMarker = [Char.ofNat 96, Char.ofNat 96, Char.ofNat 96] from by decide] at hF
    rw [List.isPrefixOf] at hF
    rw [Bool.and_eq_true] at hF
    have hcc : Char.ofNat 96 = c := by simpa using hF.1
    exact hbt hcc.symm
  rw [stripCodeFences, if_neg hpref]

/-- The backtick character. -/
def btChar : Char := Char.ofNat 96

theorem pyStripL_eq_self_of (l : List Char) (c d : Char) (m : List Char)
    (hl : l = c :: (m ++ [d])) (hc : pyIsSpace c = false) (hd : pyIsSpace d = false) :
    pyStripL l = l := by
  subst hl
  rw [pyStripL, List.dropWhile_cons, if_neg (by rw [hc]; simp)]
  have hr := rightStripP_concat pyIsSpace (c :: m) d hd
  simpa using hr

/-- Wrapping in a json code fence and extracting strips back to the
plain stripped text. -/
theorem stripCodeFences_wrap (t : List Char) :
    stripCodeFences ("```json\n".toList ++ t ++ "\n```".toList) = pyStripL t := by
  have hfm : fenceMarker = [btChar, btChar, btChar] := by decide
  have hW : "```json\n".toList ++ t ++ "\n```".toList
      = [btChar, btChar, btChar, 'j', 's', 'o', 'n']
          ++ '\n' :: (t ++ '\n' :: [btChar, btChar, btChar]) := by
    have h1 : "```json\n".toList = [btChar, btChar, btChar, 'j', 's', 'o', 'n', '\n'] := by
      decide
    have h2 : "\n```".toList = ['\n', btChar, btChar, btChar] := by decide
    rw [h1, h2]
    simp
  rw [hW]
  have hstrip : pyStripL ([btChar, btChar, btChar, 'j', 's', 'o', 'n']
        ++ '\n' :: (t ++ '\n' :: [btChar, btChar, btChar]))
      = [btChar, btChar, btChar, 'j', 's', 'o', 'n']
          ++ '\n' :: (t ++ '\n' :: [btChar, btChar, btChar]) := by
    apply pyStripL_eq_self_of _ btChar btChar
        ([btChar, btChar, 'j', 's', 'o', 'n', '\n'] ++ t ++ ['\n', btChar, btChar])
    · simp
    · decide
    · decide
  rw [stripCodeFences, hstrip]
  have hcond : fenceMarker.isPrefixOf ([btChar, btChar, btChar, 'j', 's', 'o', 'n']
      ++ '\n' :: (t ++ '\n' :: [btChar, btChar, btChar])) = true := by
    rw [hfm]
    simp [List.isPrefixOf]
  rw [if_pos hcond]
  have hsplit : splitOnChar '\n' ([btChar, btChar, btChar, 'j', 's', 'o', 'n']
        ++ '\n' :: (t ++ '\n' :: [btChar, btChar, btChar]))
      = [[btChar, btChar, btChar, 'j', 's', 'o', 'n']]
          ++ (splitOnChar '\n' t ++ [[btChar, btChar, btChar]]) := by
    rw [splitOnChar_append, splitOnChar_append]
    rw [show splitOnChar '\n' [btChar, btChar, btChar, 'j', 's', 'o', 'n']
        = [[btChar, btChar, btChar, 'j', 's', 'o', 'n']] from by decide]
    rw [show splitOnChar '\n' [btChar, btChar, btChar]
        = [[btChar, btChar, btChar]] from by decide]
  rw [hsplit]
  rw [show ([[btChar, btChar, btChar, 'j', 's', 'o', 'n']]
      ++ (splitOnChar '\n' t ++ [[btChar, btChar, btChar]])).tail
      = splitOnChar '\n' t ++ [[btChar, btChar, btChar]] from rfl]
  rw [dropClosingFence, List.getLast?_concat]
  show pyStripL (joinWith '\n' (if pyStripL [btChar, btChar, btChar] = fenceMarker
      then (splitOnChar '\n' t ++ [[btChar, btChar, btChar]]).dropLast
      else splitOnChar '\n' t ++ [[btChar, btChar, btChar]])) = pyStripL t
  rw [if_pos (by decide), List.dropLast_concat, joinWith_splitOnChar]

/-- C5: for every text that parses as JSON, extracting JSON from the
text wrapped in a single markdown json code fence yields the same
structured value as extracting from the text itself. -/
theorem extract_json_fence_roundtrip (t : String) (v : Json) (h : loads t = some v) :
    _extract_json ("```json\n" ++ t ++ "\n```") = _extract_json t := by
  have happ : ∀ a b : String, (a ++ b).toList = a.toList ++ b.toList := by
    intro a b
    rfl
  rw [_extract_json, _extract_json, happ, happ]
  rw [stripCodeFences_wrap, stripCodeFences_of_loads t.toList v h]

/-- C5 witness at the concrete document `[true]`. -/
theorem extract_json_fence_roundtrip_witness :
    _extract_json ("```json\n" ++ "[true]" ++ "\n```") = _extract_json "[true]" :=
  extract_json_fence_roundtrip "[true]" (Json.arr [Json.bool true]) (by rfl)

/-- C7 witness at sub-scores `(5, 4, 3, 2, 1)`. -/
theorem qualityVerdict_overall_spec_witness :
    ∃ q, mkQualityVerdict 5 4 3 2 1 "ok" = some q ∧
      q.overall = round2 ((5 + 4 + 3 + 2 + 1) / 5) ∧
      1 ≤ q.overall ∧ q.overall ≤ 5 :=
  qualityVerdict_overall_spec.1 5 4 3 2 1 "ok" (by norm_num) (by norm_num)
    (by norm_num) (by norm_num) (by norm_num) (by norm_num) (by norm_num)
    (by norm_num) (by norm_num) (by norm_num)

end SkillSynth
